import Mathlib

/-!
# Verification of `non-overlapping-recurring-task`

A shallow embedding of the `NonOverlappingRecurringTask` class
(`dist/non-overlapping-recurring-task.js`) together with proofs of the
properties its specification states.

The embedding has two parts:

* a model of the JavaScript values relevant to option validation
  (`JSNum`, `JSVal`, `isNaturalNumber`, `validateOptions`, `construct`),
  mirroring `_validateOptions` and the free function `isNaturalNumber`;
* a labelled transition system (`SchedState`, `Ev`, `step`) for the
  scheduler itself, whose atomic steps are the uninterrupted synchronous
  portions of the class's methods between `await` suspension points, plus
  the timer and task-settlement events of the hosting event loop.
-/

namespace NonOverlappingRecurringTask

/-! ## JavaScript numbers and values, as far as validation observes them

`intervalMs` and `immediateFirstRun` arrive as arbitrary JavaScript
values.  Validation inspects them with `typeof`, `Math.floor`, `>=` and
`===` only, so a faithful model needs finite numbers (doubles are a
subset of the rationals), the two infinities, `NaN`, and the non-number
value kinds that `typeof` distinguishes. -/

/-- A JavaScript number: a finite value (every IEEE double is a rational),
positive or negative infinity, or `NaN`. -/
inductive JSNum where
  | finite (q : ℚ)
  | posInf
  | negInf
  | nan
deriving DecidableEq, Repr

/-- A JavaScript value, classified as `typeof` does. -/
inductive JSVal where
  | num (n : JSNum)
  | str (s : String)
  | boolV (b : Bool)
  | nullV
  | undef
  | objV
deriving DecidableEq, Repr

/-- `Math.floor`: identity on the infinities and `NaN`, integer floor on
finite values. -/
def jsFloor : JSNum → JSNum
  | .finite q => .finite (⌊q⌋ : ℤ)
  | .posInf => .posInf
  | .negInf => .negInf
  | .nan => .nan

/-- The JavaScript `>=` comparison on numbers; any comparison with `NaN`
is false. -/
def jsGe : JSNum → JSNum → Bool
  | .nan, _ => false
  | _, .nan => false
  | .posInf, _ => true
  | .finite _, .posInf => false
  | .negInf, .posInf => false
  | .negInf, .negInf => true
  | .negInf, .finite _ => false
  | .finite _, .negInf => true
  | .finite p, .finite q => decide (q ≤ p)

/-- The JavaScript `===` comparison on numbers; `NaN === NaN` is false. -/
def jsStrictEq : JSNum → JSNum → Bool
  | .nan, _ => false
  | _, .nan => false
  | .posInf, .posInf => true
  | .posInf, _ => false
  | .negInf, .negInf => true
  | .negInf, _ => false
  | .finite p, .finite q => decide (p = q)
  | .finite _, _ => false

/-- Mirrors the source's free function:
`typeof num !== 'number'` returns false; otherwise
`floored = Math.floor(num)` and the result is
`floored >= 1 && floored === num`. -/
def isNaturalNumber : JSVal → Bool
  | .num n => jsGe (jsFloor n) (.finite 1) && jsStrictEq (jsFloor n) n
  | _ => false

/-- The `typeof immediateFirstRun !== 'boolean'` test. -/
def jsTypeofBoolean : JSVal → Bool
  | .boolV _ => true
  | _ => false

/-- Mirrors `_validateOptions`: throw if `intervalMs` fails
`isNaturalNumber`, then throw if `immediateFirstRun` is not a boolean. -/
def validateOptions (intervalMs immediateFirstRun : JSVal) : Except String Unit :=
  if isNaturalNumber intervalMs = false then
    .error "NonOverlappingRecurringTask expects a natural number for intervalMs"
  else if jsTypeofBoolean immediateFirstRun = false then
    .error "NonOverlappingRecurringTask expects a boolean type for immediateFirstRun"
  else
    .ok ()

/-- The lifecycle status held in `_status`. -/
inductive Status where
  | inactive
  | active
  | terminating
deriving DecidableEq, Repr

/-- Mirrors the constructor: store the collaborators, set
`_status = 'inactive'`, then run `_validateOptions`, which may throw.
The task and the error handler are opaque and never inspected. -/
def construct {α β : Type} (_asyncTask : α) (intervalMs immediateFirstRun : JSVal)
    (_onTaskError : Option β) : Except String Status :=
  match validateOptions intervalMs immediateFirstRun with
  | .error e => .error e
  | .ok _ => .ok Status.inactive

/-- The spec's words, for comparison with the source's acceptance test:
a positive integer is an integer value that is at least one. -/
def IsPositiveIntegerSpec (v : JSVal) : Prop :=
  ∃ k : ℤ, 1 ≤ k ∧ v = .num (.finite (k : ℚ))

/-- The spec's words: a boolean value. -/
def IsBooleanSpec (v : JSVal) : Prop :=
  ∃ b : Bool, v = .boolV b

/-- The source accepts exactly the positive integers plus positive
infinity: on `Infinity`, `Math.floor` is the identity and
`Infinity >= 1 && Infinity === Infinity` holds. -/
theorem isNaturalNumber_characterization (v : JSVal) :
    isNaturalNumber v = true ↔ (IsPositiveIntegerSpec v ∨ v = .num .posInf) := by
  constructor
  · intro h
    cases v with
    | num n =>
      cases n with
      | finite q =>
        simp only [isNaturalNumber, jsFloor, jsGe, jsStrictEq, Bool.and_eq_true,
          decide_eq_true_eq] at h
        obtain ⟨h1, h2⟩ := h
        left
        refine ⟨⌊q⌋, ?_, ?_⟩
        · exact_mod_cast h1
        · rw [h2]
      | posInf => right; rfl
      | negInf => simp [isNaturalNumber, jsFloor, jsGe] at h
      | nan => simp [isNaturalNumber, jsFloor, jsGe] at h
    | str s => simp [isNaturalNumber] at h
    | boolV b => simp [isNaturalNumber] at h
    | nullV => simp [isNaturalNumber] at h
    | undef => simp [isNaturalNumber] at h
    | objV => simp [isNaturalNumber] at h
  · intro h
    rcases h with ⟨k, hk, rfl⟩ | rfl
    · simp only [isNaturalNumber, jsFloor, Int.floor_intCast, jsGe, jsStrictEq,
        Bool.and_eq_true, decide_eq_true_eq]
      exact ⟨by exact_mod_cast hk, trivial⟩
    · rfl

/-! ## The scheduler as a labelled transition system

The class runs on a single-threaded event loop.  Every public method is
`async`: it executes synchronously up to its first `await` and its
continuations run as microtasks.  The transition system's atomic steps
are exactly these uninterrupted synchronous portions, plus `setInterval`
fires and task settlements.

State fields mirror the instance fields:

* `status` is `_status`;
* `timerArmed` records whether `_timerHandle` holds a live interval;
* `handle` records `_currentExecutionPromise !== undefined`;
* `handleBroken` records that the promise stored in
  `_currentExecutionPromise` has rejected (which happens only when the
  supplied error handler itself throws inside
  `_executeTaskAndUpdateState`, skipping the line that clears the field);
* `running` counts task invocations begun and not yet settled, and
  `begun` counts all task invocations ever begun (bookkeeping for the
  proofs, not instance fields);
* `handlerCalls` counts invocations of `_onTaskError`;
* `waiters` counts the suspended continuations awaiting
  `_currentExecutionPromise` (or an already-resolved promise), by kind.

Suspended continuations carry no data beyond their resumption point, so
the waiting multiset is a tuple of counters. -/

/-- Outcome of one task invocation: the promise returned by
`_asyncTask()` either fulfils or rejects. -/
inductive TaskOutcome where
  | success
  | failure
deriving DecidableEq, Repr

/-- The construction-time configuration relevant to the dynamics:
the `immediateFirstRun` option, whether an `_onTaskError` handler was
supplied, and whether that handler itself throws when invoked. -/
structure Cfg where
  immediateFirstRun : Bool
  hasErrorHandler : Bool
  errorHandlerThrows : Bool
deriving DecidableEq, Repr

/-- Counters of suspended continuations, by resumption point.
`B` counters are blocked on the pending execution promise and can only
be released by its settlement; `R` counters are runnable (they hold an
already-resolved promise, or were released by a settlement) and resume
as microtasks in any order. -/
structure Waiters where
  startB : Nat
  startR : Nat
  stopB : Nat
  stopR : Nat
  stopRB : Nat
  stopRR : Nat
  userB : Nat
deriving DecidableEq, Repr

/-- No suspended continuations. -/
def Waiters.none : Waiters := ⟨0, 0, 0, 0, 0, 0, 0⟩

/-- A settlement of the execution promise releases every blocked
continuation: the `start` and `stop` continuations become runnable
microtasks, and the promises handed out by
`waitUntilCurrentExecutionCompletes` resolve. -/
def Waiters.wake (w : Waiters) : Waiters :=
  { startB := 0, startR := w.startR + w.startB,
    stopB := 0, stopR := w.stopR + w.stopB,
    stopRB := 0, stopRR := w.stopRR + w.stopRB,
    userB := 0 }

/-- The instance state together with proof bookkeeping counters. -/
structure SchedState where
  status : Status
  timerArmed : Bool
  handle : Bool
  handleBroken : Bool
  running : Nat
  begun : Nat
  handlerCalls : Nat
  waiters : Waiters
deriving DecidableEq, Repr

/-- The state right after a successful construction:
`_status = 'inactive'`, no timer, no execution promise. -/
def initState : SchedState :=
  ⟨Status.inactive, false, false, false, 0, 0, 0, Waiters.none⟩

/-- Observable results emitted by a step: a `start` or `stop` call's
promise settling with its boolean, a
`waitUntilCurrentExecutionCompletes` promise resolving, or any of those
promises rejecting. -/
inductive Res where
  | startRet (b : Bool)
  | stopRet (b : Bool)
  | waitRet
  | startRej
  | stopRej
  | waitRej
deriving DecidableEq, Repr

/-- Events: public calls arriving, a `setInterval` fire, the settlement
of the running task, and the resumption of one runnable suspended
continuation. -/
inductive Ev where
  | callStart
  | callStop
  | callWait
  | tick
  | settle (o : TaskOutcome)
  | resumeStart
  | resumeStop
  | resumeStopRed
deriving DecidableEq, Repr

/-- Mirrors `this._currentExecutionPromise = this._executeTaskAndUpdateState()`:
the async method starts the task synchronously and the fresh promise is
stored (pending, hence not broken). -/
def beginAttempt (s : SchedState) : SchedState :=
  { s with handle := true, handleBroken := false,
           running := s.running + 1, begun := s.begun + 1 }

/-- Mirrors the tail of `start` once `_status` has been observed
`'inactive'`: set `_status = 'active'`, begin an attempt when
`immediateFirstRun`, then arm the interval timer. -/
def activate (c : Cfg) (s : SchedState) : SchedState :=
  let s1 : SchedState := { s with status := Status.active }
  let s2 : SchedState := if c.immediateFirstRun = true then beginAttempt s1 else s1
  { s2 with timerArmed := true }

/-- One atomic step of the event loop.  `none` means the event is not
enabled in this state (no timer armed, no running task, or no runnable
continuation of that kind). -/
def step (c : Cfg) (s : SchedState) : Ev → Option (SchedState × List Res)
  | .callStart =>
    -- `start`: the `while (this._status === 'terminating')` loop, then the
    -- `active` early return, then the inactive-to-active toggle.
    match s.status with
    | .active => some (s, [.startRet false])
    | .inactive => some (activate c s, [.startRet true])
    | .terminating =>
      if s.handle = true then
        if s.handleBroken = true then some (s, [.startRej])
        else some ({ s with waiters := { s.waiters with startB := s.waiters.startB + 1 } }, [])
      else
        some ({ s with waiters := { s.waiters with startR := s.waiters.startR + 1 } }, [])
  | .callStop =>
    -- `stop`: early return when inactive; await-then-report-false when
    -- terminating; otherwise toggle to terminating, clear the interval,
    -- and await the current execution.
    match s.status with
    | .inactive => some (s, [.stopRet false])
    | .terminating =>
      if s.handle = true then
        if s.handleBroken = true then some (s, [.stopRej])
        else some ({ s with waiters := { s.waiters with stopRB := s.waiters.stopRB + 1 } }, [])
      else
        some ({ s with waiters := { s.waiters with stopRR := s.waiters.stopRR + 1 } }, [])
    | .active =>
      if s.handle = true then
        if s.handleBroken = true then
          some ({ s with status := Status.terminating, timerArmed := false }, [.stopRej])
        else
          some ({ s with status := Status.terminating, timerArmed := false,
                         waiters := { s.waiters with stopB := s.waiters.stopB + 1 } }, [])
      else
        some ({ s with status := Status.terminating, timerArmed := false,
                       waiters := { s.waiters with stopR := s.waiters.stopR + 1 } }, [])
  | .callWait =>
    -- `waitUntilCurrentExecutionCompletes`: hand out the current
    -- execution promise, or an already-resolved one.
    if s.handle = true then
      if s.handleBroken = true then some (s, [.waitRej])
      else some ({ s with waiters := { s.waiters with userB := s.waiters.userB + 1 } }, [])
    else
      some (s, [.waitRet])
  | .tick =>
    -- The `setInterval` callback: begin an attempt only when no
    -- execution promise exists; otherwise the fire is discarded.
    if s.timerArmed = true then
      if s.handle = true then some (s, [])
      else some (beginAttempt s, [])
    else none
  | .settle o =>
    -- The running task settles inside `_executeTaskAndUpdateState`:
    -- on rejection the optional handler is invoked; then the field is
    -- cleared -- unless the handler itself threw, in which case the
    -- method's promise rejects with the field still set.
    if s.running = 0 then none
    else if o = TaskOutcome.failure ∧ c.hasErrorHandler = true ∧ c.errorHandlerThrows = true then
      some ({ s with running := s.running - 1,
                     handlerCalls := s.handlerCalls + 1,
                     handleBroken := true,
                     waiters := { s.waiters with startB := 0, stopB := 0, stopRB := 0, userB := 0 } },
            List.replicate s.waiters.startB Res.startRej ++
              List.replicate (s.waiters.stopB + s.waiters.stopRB) Res.stopRej ++
              List.replicate s.waiters.userB Res.waitRej)
    else
      some ({ s with running := s.running - 1,
                     handlerCalls :=
                       s.handlerCalls +
                         (if o = TaskOutcome.failure ∧ c.hasErrorHandler = true then 1 else 0),
                     handle := false, handleBroken := false,
                     waiters := s.waiters.wake },
            List.replicate s.waiters.userB Res.waitRet)
  | .resumeStart =>
    -- A suspended `start` resumes: re-run the `while` loop test.
    if s.waiters.startR = 0 then none
    else
      match s.status with
      | .active =>
        some ({ s with waiters := { s.waiters with startR := s.waiters.startR - 1 } },
              [.startRet false])
      | .inactive =>
        some (activate c { s with waiters := { s.waiters with startR := s.waiters.startR - 1 } },
              [.startRet true])
      | .terminating =>
        if s.handle = true then
          if s.handleBroken = true then
            some ({ s with waiters := { s.waiters with startR := s.waiters.startR - 1 } },
                  [.startRej])
          else
            some ({ s with waiters :=
                    { s.waiters with startR := s.waiters.startR - 1
                                     startB := s.waiters.startB + 1 } }, [])
        else some (s, [])
  | .resumeStop =>
    -- The continuation of the stop call that initiated termination:
    -- `this._status = 'inactive'; return true`.
    if s.waiters.stopR = 0 then none
    else
      some ({ s with status := Status.inactive,
                     waiters := { s.waiters with stopR := s.waiters.stopR - 1 } },
            [.stopRet true])
  | .resumeStopRed =>
    -- The continuation of a redundant stop call: `return false`.
    if s.waiters.stopRR = 0 then none
    else
      some ({ s with waiters := { s.waiters with stopRR := s.waiters.stopRR - 1 } },
            [.stopRet false])

/-- The `isCurrentlyExecuting` getter:
`this._currentExecutionPromise !== undefined`. -/
def isCurrentlyExecuting (s : SchedState) : Bool := s.handle

/-- Execution sequences of the event loop: the reflexive-transitive
closure of `step`. -/
inductive Steps (c : Cfg) : SchedState → SchedState → Prop where
  | refl (s : SchedState) : Steps c s s
  | tail {s t u : SchedState} {ev : Ev} {obs : List Res} :
      Steps c s t → step c t ev = some (u, obs) → Steps c s u

/-- A state is reachable when some interleaving of calls, timer fires,
settlements and resumptions produces it from the freshly constructed
instance. -/
def Reach (c : Cfg) (s : SchedState) : Prop := Steps c initState s

/-- The spec's standing assumption on the collaborator: the supplied
error handler, if any, never itself throws. -/
def WellBehaved (c : Cfg) : Prop := c.hasErrorHandler = true → c.errorHandlerThrows = false

/-! ## The inductive invariant -/

/-- The inductive invariant of the event loop.  Its key clauses: at most
one task invocation is ever unsettled; an unsettled invocation implies a
stored execution promise; the status is the source of truth (`inactive`
means no stored promise, an armed timer means `active`); a broken
promise pins the state; the terminating-phase bookkeeping (at most one
initiating stop continuation, and it is runnable only once the
execution promise is cleared). -/
def Inv (s : SchedState) : Prop :=
  s.running ≤ 1
  ∧ (s.running = 1 → s.handle = true)
  ∧ (s.handle = true → s.running = 1 ∨ s.handleBroken = true)
  ∧ (s.status = Status.inactive → s.handle = false)
  ∧ (s.timerArmed = true → s.status = Status.active)
  ∧ (s.handleBroken = true →
       s.handle = true ∧ s.running = 0 ∧ s.waiters.stopB = 0 ∧ s.waiters.stopR = 0)
  ∧ (1 ≤ s.waiters.stopB + s.waiters.stopR → s.status = Status.terminating)
  ∧ s.waiters.stopB + s.waiters.stopR ≤ 1
  ∧ (1 ≤ s.waiters.stopR → s.handle = false)

/-- Preservation of the invariant by a `callStart` step. -/
theorem inv_callStart {c : Cfg} {s s2 : SchedState} {obs : List Res}
    (hI : Inv s) (h : step c s Ev.callStart = some (s2, obs)) : Inv s2 := by
  obtain ⟨st, tm, hd, br, run, beg, hc, sB, sR, pB, pR, rB, rR, uB⟩ := s
  obtain ⟨i1, i2, i3, i4, i5, i6, i7, i8, i9⟩ := hI
  cases st <;> cases hd <;> cases br <;>
    simp only [step, Option.some.injEq, Prod.mk.injEq] at h <;>
    obtain ⟨rfl, rfl⟩ := h <;>
    cases hIm : c.immediateFirstRun <;>
    simp only [Inv, activate, beginAttempt, hIm, if_true, if_false] <;>
    simp_all <;>
    omega

/-- Preservation of the invariant by a `callStop` step. -/
theorem inv_callStop {c : Cfg} {s s2 : SchedState} {obs : List Res}
    (hI : Inv s) (h : step c s Ev.callStop = some (s2, obs)) : Inv s2 := by
  obtain ⟨st, tm, hd, br, run, beg, hc, sB, sR, pB, pR, rB, rR, uB⟩ := s
  obtain ⟨i1, i2, i3, i4, i5, i6, i7, i8, i9⟩ := hI
  cases st <;> cases hd <;> cases br <;>
    simp only [step, Option.some.injEq, Prod.mk.injEq] at h <;>
    obtain ⟨rfl, rfl⟩ := h <;>
    simp only [Inv] <;>
    simp_all <;>
    omega

/-- Preservation of the invariant by a `callWait` step. -/
theorem inv_callWait {c : Cfg} {s s2 : SchedState} {obs : List Res}
    (hI : Inv s) (h : step c s Ev.callWait = some (s2, obs)) : Inv s2 := by
  obtain ⟨st, tm, hd, br, run, beg, hc, sB, sR, pB, pR, rB, rR, uB⟩ := s
  obtain ⟨i1, i2, i3, i4, i5, i6, i7, i8, i9⟩ := hI
  cases hd <;> cases br <;>
    simp only [step, Option.some.injEq, Prod.mk.injEq] at h <;>
    obtain ⟨rfl, rfl⟩ := h <;>
    simp only [Inv] <;>
    simp_all <;>
    omega

/-- Preservation of the invariant by a `tick` step. -/
theorem inv_tick {c : Cfg} {s s2 : SchedState} {obs : List Res}
    (hI : Inv s) (h : step c s Ev.tick = some (s2, obs)) : Inv s2 := by
  obtain ⟨st, tm, hd, br, run, beg, hc, sB, sR, pB, pR, rB, rR, uB⟩ := s
  obtain ⟨i1, i2, i3, i4, i5, i6, i7, i8, i9⟩ := hI
  cases tm <;> cases hd <;>
    simp only [step, beginAttempt, Option.some.injEq, Prod.mk.injEq,
      Bool.true_eq_false, if_true, if_false, reduceIte] at h <;>
    obtain ⟨rfl, rfl⟩ := h <;>
    simp only [Inv] <;>
    simp_all <;>
    omega

/-- Preservation of the invariant by a `settle` step. -/
theorem inv_settle {c : Cfg} {s s2 : SchedState} {obs : List Res} {o : TaskOutcome}
    (hI : Inv s) (h : step c s (Ev.settle o) = some (s2, obs)) : Inv s2 := by
  obtain ⟨st, tm, hd, br, run, beg, hc, sB, sR, pB, pR, rB, rR, uB⟩ := s
  obtain ⟨i1, i2, i3, i4, i5, i6, i7, i8, i9⟩ := hI
  dsimp only at i1 i2 i3 i4 i5 i6 i7 i8 i9
  cases run with
  | zero => simp [step] at h
  | succ n =>
    have hn : n = 0 := by omega
    subst hn
    have hhd : hd = true := i2 rfl
    subst hhd
    have hbr : br = false := by
      cases br with
      | false => rfl
      | true => exact absurd (i6 rfl).2.1 (by omega)
    subst hbr
    cases o <;> cases hEH : c.hasErrorHandler <;> cases hET : c.errorHandlerThrows <;>
      simp only [step, hEH, hET, Waiters.wake, Option.some.injEq, Prod.mk.injEq,
        reduceCtorEq, and_true, and_false, true_and, false_and, if_true, if_false,
        reduceIte] at h <;>
      obtain ⟨rfl, rfl⟩ := h <;>
      simp only [Inv] <;>
      simp_all <;>
      omega

/-- Preservation of the invariant by a `resumeStart` step. -/
theorem inv_resumeStart {c : Cfg} {s s2 : SchedState} {obs : List Res}
    (hI : Inv s) (h : step c s Ev.resumeStart = some (s2, obs)) : Inv s2 := by
  obtain ⟨st, tm, hd, br, run, beg, hc, sB, sR, pB, pR, rB, rR, uB⟩ := s
  obtain ⟨i1, i2, i3, i4, i5, i6, i7, i8, i9⟩ := hI
  cases st <;> cases hd <;> cases br <;> cases sR <;>
    simp only [step, Option.some.injEq, Prod.mk.injEq] at h <;>
    obtain ⟨rfl, rfl⟩ := h <;>
    cases hIm : c.immediateFirstRun <;>
    simp only [Inv, activate, beginAttempt, hIm, if_true, if_false] <;>
    simp_all <;>
    omega

/-- Preservation of the invariant by a `resumeStop` step. -/
theorem inv_resumeStop {c : Cfg} {s s2 : SchedState} {obs : List Res}
    (hI : Inv s) (h : step c s Ev.resumeStop = some (s2, obs)) : Inv s2 := by
  obtain ⟨st, tm, hd, br, run, beg, hc, sB, sR, pB, pR, rB, rR, uB⟩ := s
  obtain ⟨i1, i2, i3, i4, i5, i6, i7, i8, i9⟩ := hI
  dsimp only at i1 i2 i3 i4 i5 i6 i7 i8 i9
  cases pR with
  | zero => simp [step] at h
  | succ n =>
    simp only [step, Option.some.injEq, Prod.mk.injEq] at h
    obtain ⟨rfl, rfl⟩ := h
    have hst : st = Status.terminating := i7 (by omega)
    subst hst
    have hhd : hd = false := i9 (by omega)
    subst hhd
    have hpB : pB = 0 := by omega
    subst hpB
    have hn : n = 0 := by omega
    subst hn
    have hbr : br = false := by
      cases br with
      | false => rfl
      | true => exact absurd (i6 rfl).1 (by simp)
    subst hbr
    have htm : tm = false := by
      cases tm with
      | false => rfl
      | true => exact absurd (i5 rfl) (by simp)
    subst htm
    simp only [Inv]
    simp_all

/-- Preservation of the invariant by a `resumeStopRed` step. -/
theorem inv_resumeStopRed {c : Cfg} {s s2 : SchedState} {obs : List Res}
    (hI : Inv s) (h : step c s Ev.resumeStopRed = some (s2, obs)) : Inv s2 := by
  obtain ⟨st, tm, hd, br, run, beg, hc, sB, sR, pB, pR, rB, rR, uB⟩ := s
  obtain ⟨i1, i2, i3, i4, i5, i6, i7, i8, i9⟩ := hI
  cases rR <;>
    simp only [step, Option.some.injEq, Prod.mk.injEq] at h <;>
    obtain ⟨rfl, rfl⟩ := h <;>
    simp only [Inv] <;>
    simp_all <;>
    omega

/-- Every step preserves the invariant. -/
theorem inv_step {c : Cfg} {s s2 : SchedState} {ev : Ev} {obs : List Res}
    (hI : Inv s) (h : step c s ev = some (s2, obs)) : Inv s2 := by
  cases ev with
  | callStart => exact inv_callStart hI h
  | callStop => exact inv_callStop hI h
  | callWait => exact inv_callWait hI h
  | tick => exact inv_tick hI h
  | settle o => exact inv_settle hI h
  | resumeStart => exact inv_resumeStart hI h
  | resumeStop => exact inv_resumeStop hI h
  | resumeStopRed => exact inv_resumeStopRed hI h

/-- The invariant propagates along execution sequences. -/
theorem inv_steps {c : Cfg} {s t : SchedState} (hI : Inv s) (h : Steps c s t) : Inv t := by
  induction h with
  | refl => exact hI
  | tail _ hstep ih => exact inv_step ih hstep

/-- The freshly constructed state satisfies the invariant. -/
theorem inv_init : Inv initState := by
  simp [Inv, initState, Waiters.none]

/-- Every reachable state satisfies the invariant. -/
theorem inv_reach {c : Cfg} {s : SchedState} (h : Reach c s) : Inv s :=
  inv_steps inv_init h

/-- A step can only produce a broken (rejected) execution promise when
it was already broken, or when a supplied error handler throws. -/
theorem broken_of_step {c : Cfg} {s s2 : SchedState} {ev : Ev} {obs : List Res}
    (h : step c s ev = some (s2, obs)) (hb : s2.handleBroken = true) :
    s.handleBroken = true ∨ (c.hasErrorHandler = true ∧ c.errorHandlerThrows = true) := by
  obtain ⟨st, tm, hd, br, run, beg, hc, sB, sR, pB, pR, rB, rR, uB⟩ := s
  cases ev with
  | callStart =>
    cases st <;> cases hd <;> cases br <;>
      simp only [step, Option.some.injEq, Prod.mk.injEq] at h <;>
      obtain ⟨rfl, rfl⟩ := h <;>
      cases hIm : c.immediateFirstRun <;>
      simp_all [activate, beginAttempt]
  | callStop =>
    cases st <;> cases hd <;> cases br <;>
      simp only [step, Option.some.injEq, Prod.mk.injEq] at h <;>
      obtain ⟨rfl, rfl⟩ := h <;>
      simp_all
  | callWait =>
    cases hd <;> cases br <;>
      simp only [step, Option.some.injEq, Prod.mk.injEq] at h <;>
      obtain ⟨rfl, rfl⟩ := h <;>
      simp_all
  | tick =>
    cases tm <;> cases hd <;>
      simp only [step, beginAttempt, Option.some.injEq, Prod.mk.injEq, reduceIte] at h <;>
      obtain ⟨rfl, rfl⟩ := h <;>
      simp_all
  | settle o =>
    cases run with
    | zero => simp [step] at h
    | succ n =>
      cases o <;> cases hEH : c.hasErrorHandler <;> cases hET : c.errorHandlerThrows <;>
        simp only [step, hEH, hET, Waiters.wake, Option.some.injEq, Prod.mk.injEq,
          reduceCtorEq, and_true, and_false, true_and, false_and, if_true, if_false,
          reduceIte] at h <;>
        obtain ⟨rfl, rfl⟩ := h <;>
        simp_all
  | resumeStart =>
    cases st <;> cases hd <;> cases br <;> cases sR <;>
      simp only [step, Option.some.injEq, Prod.mk.injEq] at h <;>
      obtain ⟨rfl, rfl⟩ := h <;>
      cases hIm : c.immediateFirstRun <;>
      simp_all [activate, beginAttempt]
  | resumeStop =>
    cases pR <;>
      simp only [step, Option.some.injEq, Prod.mk.injEq] at h <;>
      obtain ⟨rfl, rfl⟩ := h <;>
      simp_all
  | resumeStopRed =>
    cases rR <;>
      simp only [step, Option.some.injEq, Prod.mk.injEq] at h <;>
      obtain ⟨rfl, rfl⟩ := h <;>
      simp_all

/-- With a well-behaved (or absent) error handler, the stored execution
promise never rejects, along any execution sequence. -/
theorem notBroken_steps {c : Cfg} {s t : SchedState} (hw : WellBehaved c)
    (hb : s.handleBroken = false) (h : Steps c s t) : t.handleBroken = false := by
  induction h with
  | refl => exact hb
  | tail _ hstep ih =>
    by_contra hb2
    rw [Bool.not_eq_false] at hb2
    rcases broken_of_step hstep hb2 with h1 | ⟨h2, h3⟩
    · rw [ih] at h1
      exact Bool.false_ne_true h1
    · rw [hw h2] at h3
      exact Bool.false_ne_true h3

/-- With a well-behaved (or absent) error handler, no reachable state
holds a rejected execution promise. -/
theorem notBroken_reach {c : Cfg} {s : SchedState} (hw : WellBehaved c)
    (h : Reach c s) : s.handleBroken = false :=
  notBroken_steps hw rfl h

/-- The absorbing predicate entered when a supplied error handler throws:
the rejected promise is still stored, nothing is running, the status can
never return to `inactive`, no initiating stop continuation exists, and
the count of attempts ever begun is frozen at `b`. -/
def BrokenStable (b : Nat) (t : SchedState) : Prop :=
  t.handleBroken = true ∧ t.handle = true ∧ t.running = 0
  ∧ t.status ≠ Status.inactive ∧ t.waiters.stopB = 0 ∧ t.waiters.stopR = 0
  ∧ t.begun = b

/-- `BrokenStable` is preserved by every step: once the handler has
thrown, no event can clear the stored promise or begin an attempt. -/
theorem brokenStable_step {c : Cfg} {b : Nat} {s s2 : SchedState} {ev : Ev} {obs : List Res}
    (hB : BrokenStable b s) (h : step c s ev = some (s2, obs)) : BrokenStable b s2 := by
  obtain ⟨st, tm, hd, br, run, beg, hc, sB, sR, pB, pR, rB, rR, uB⟩ := s
  obtain ⟨b1, b2, b3, b4, b5, b6, b7⟩ := hB
  dsimp only at b1 b2 b3 b4 b5 b6 b7
  subst b1; subst b2; subst b3; subst b5; subst b7
  cases ev with
  | callStart =>
    cases st <;>
      simp only [step, Option.some.injEq, Prod.mk.injEq, reduceIte] at h <;>
      obtain ⟨rfl, rfl⟩ := h <;>
      simp_all [BrokenStable]
  | callStop =>
    cases st <;>
      simp only [step, Option.some.injEq, Prod.mk.injEq, reduceIte] at h <;>
      obtain ⟨rfl, rfl⟩ := h <;>
      simp_all [BrokenStable]
  | callWait =>
    simp only [step, Option.some.injEq, Prod.mk.injEq, reduceIte] at h
    obtain ⟨rfl, rfl⟩ := h
    simp_all [BrokenStable]
  | tick =>
    cases tm <;>
      simp only [step, Option.some.injEq, Prod.mk.injEq, reduceIte] at h <;>
      obtain ⟨rfl, rfl⟩ := h <;>
      simp_all [BrokenStable]
  | settle o => simp [step] at h
  | resumeStart =>
    cases st <;> cases sR <;>
      simp only [step, Option.some.injEq, Prod.mk.injEq, reduceIte] at h <;>
      obtain ⟨rfl, rfl⟩ := h <;>
      simp_all [BrokenStable]
  | resumeStop =>
    cases hpR : pR <;> simp_all [step]
  | resumeStopRed =>
    cases rR <;>
      simp only [step, Option.some.injEq, Prod.mk.injEq, reduceIte] at h <;>
      obtain ⟨rfl, rfl⟩ := h <;>
      simp_all [BrokenStable]

/-- `BrokenStable` propagates along execution sequences. -/
theorem brokenStable_steps {c : Cfg} {b : Nat} {s t : SchedState}
    (hB : BrokenStable b s) (h : Steps c s t) : BrokenStable b t := by
  induction h with
  | refl => exact hB
  | tail _ hstep ih => exact brokenStable_step ih hstep

/-! ## Emission lemmas: which steps can settle which promises -/

/-- Activation always leaves the status `active`. -/
theorem activate_status (c : Cfg) (s : SchedState) :
    (activate c s).status = Status.active := by
  cases hIm : c.immediateFirstRun <;> simp [activate, beginAttempt, hIm]

/-- Activation always arms the timer. -/
theorem activate_timerArmed (c : Cfg) (s : SchedState) :
    (activate c s).timerArmed = true := by
  cases hIm : c.immediateFirstRun <;> simp [activate, beginAttempt, hIm]

/-- A `start` promise settles with `true` exactly on an
inactive-to-active transition, and with `false` exactly when the
instance was already active and nothing changed. -/
theorem startRet_emitted {c : Cfg} {s s2 : SchedState} {ev : Ev} {obs : List Res}
    (h : step c s ev = some (s2, obs)) (b : Bool) (hmem : Res.startRet b ∈ obs) :
    (b = true ∧ s.status = Status.inactive ∧ s2.status = Status.active) ∨
    (b = false ∧ s.status = Status.active ∧ s2.status = Status.active ∧
       s2.begun = s.begun ∧ s2.timerArmed = s.timerArmed ∧ s2.handle = s.handle ∧
       s2.running = s.running) := by
  obtain ⟨st, tm, hd, br, run, beg, hc, sB, sR, pB, pR, rB, rR, uB⟩ := s
  cases ev with
  | callStart =>
    cases st <;> cases hd <;> cases br <;>
      simp only [step, Option.some.injEq, Prod.mk.injEq] at h <;>
      obtain ⟨rfl, rfl⟩ := h <;>
      simp_all [activate_status]
  | callStop =>
    cases st <;> cases hd <;> cases br <;>
      simp only [step, Option.some.injEq, Prod.mk.injEq] at h <;>
      obtain ⟨rfl, rfl⟩ := h <;>
      simp_all
  | callWait =>
    cases hd <;> cases br <;>
      simp only [step, Option.some.injEq, Prod.mk.injEq] at h <;>
      obtain ⟨rfl, rfl⟩ := h <;>
      simp_all
  | tick =>
    cases tm <;> cases hd <;>
      simp only [step, beginAttempt, Option.some.injEq, Prod.mk.injEq, reduceIte] at h <;>
      obtain ⟨rfl, rfl⟩ := h <;>
      simp_all
  | settle o =>
    cases run with
    | zero => simp [step] at h
    | succ n =>
      cases o <;> cases hEH : c.hasErrorHandler <;> cases hET : c.errorHandlerThrows <;>
        simp only [step, hEH, hET, Waiters.wake, Option.some.injEq, Prod.mk.injEq,
          reduceCtorEq, and_true, and_false, true_and, false_and, if_true, if_false,
          reduceIte] at h <;>
        obtain ⟨rfl, rfl⟩ := h <;>
        simp_all [List.mem_replicate, List.mem_append]
  | resumeStart =>
    cases st <;> cases hd <;> cases br <;> cases sR <;>
      simp only [step, Option.some.injEq, Prod.mk.injEq] at h <;>
      obtain ⟨rfl, rfl⟩ := h <;>
      simp_all [activate_status]
  | resumeStop =>
    cases pR <;>
      simp only [step, Option.some.injEq, Prod.mk.injEq] at h <;>
      obtain ⟨rfl, rfl⟩ := h <;>
      simp_all
  | resumeStopRed =>
    cases rR <;>
      simp only [step, Option.some.injEq, Prod.mk.injEq] at h <;>
      obtain ⟨rfl, rfl⟩ := h <;>
      simp_all

/-- A `stop` promise settles with `true` only through the resumption of
the initiating stop continuation, which drives the status to `inactive`;
it settles with `false` only leaving status and execution promise
untouched. -/
theorem stopRet_emitted {c : Cfg} {s s2 : SchedState} {ev : Ev} {obs : List Res}
    (h : step c s ev = some (s2, obs)) (b : Bool) (hmem : Res.stopRet b ∈ obs) :
    (b = true ∧ ev = Ev.resumeStop ∧ 1 ≤ s.waiters.stopR ∧
       s2.status = Status.inactive) ∨
    (b = false ∧ s2.status = s.status ∧ s2.handle = s.handle ∧ s2.begun = s.begun) := by
  obtain ⟨st, tm, hd, br, run, beg, hc, sB, sR, pB, pR, rB, rR, uB⟩ := s
  cases ev with
  | callStart =>
    cases st <;> cases hd <;> cases br <;>
      simp only [step, Option.some.injEq, Prod.mk.injEq] at h <;>
      obtain ⟨rfl, rfl⟩ := h <;>
      simp_all
  | callStop =>
    cases st <;> cases hd <;> cases br <;>
      simp only [step, Option.some.injEq, Prod.mk.injEq] at h <;>
      obtain ⟨rfl, rfl⟩ := h <;>
      simp_all
  | callWait =>
    cases hd <;> cases br <;>
      simp only [step, Option.some.injEq, Prod.mk.injEq] at h <;>
      obtain ⟨rfl, rfl⟩ := h <;>
      simp_all
  | tick =>
    cases tm <;> cases hd <;>
      simp only [step, beginAttempt, Option.some.injEq, Prod.mk.injEq, reduceIte] at h <;>
      obtain ⟨rfl, rfl⟩ := h <;>
      simp_all
  | settle o =>
    cases run with
    | zero => simp [step] at h
    | succ n =>
      cases o <;> cases hEH : c.hasErrorHandler <;> cases hET : c.errorHandlerThrows <;>
        simp only [step, hEH, hET, Waiters.wake, Option.some.injEq, Prod.mk.injEq,
          reduceCtorEq, and_true, and_false, true_and, false_and, if_true, if_false,
          reduceIte] at h <;>
        obtain ⟨rfl, rfl⟩ := h <;>
        simp_all [List.mem_replicate, List.mem_append]
  | resumeStart =>
    cases st <;> cases hd <;> cases br <;> cases sR <;>
      simp only [step, Option.some.injEq, Prod.mk.injEq] at h <;>
      obtain ⟨rfl, rfl⟩ := h <;>
      simp_all
  | resumeStop =>
    cases pR <;>
      simp only [step, Option.some.injEq, Prod.mk.injEq] at h <;>
      obtain ⟨rfl, rfl⟩ := h <;>
      simp_all
  | resumeStopRed =>
    cases rR <;>
      simp only [step, Option.some.injEq, Prod.mk.injEq] at h <;>
      obtain ⟨rfl, rfl⟩ := h <;>
      simp_all

/-- A rejection can only be observed when the stored execution promise
is already broken, or the step is the very settlement at which a
supplied error handler throws. -/
theorem rejection_emitted {c : Cfg} {s s2 : SchedState} {ev : Ev} {obs : List Res}
    (h : step c s ev = some (s2, obs))
    (hmem : Res.startRej ∈ obs ∨ Res.stopRej ∈ obs ∨ Res.waitRej ∈ obs) :
    s.handleBroken = true ∨ (c.hasErrorHandler = true ∧ c.errorHandlerThrows = true) := by
  obtain ⟨st, tm, hd, br, run, beg, hc, sB, sR, pB, pR, rB, rR, uB⟩ := s
  cases ev with
  | callStart =>
    cases st <;> cases hd <;> cases br <;>
      simp only [step, Option.some.injEq, Prod.mk.injEq] at h <;>
      obtain ⟨rfl, rfl⟩ := h <;>
      simp_all
  | callStop =>
    cases st <;> cases hd <;> cases br <;>
      simp only [step, Option.some.injEq, Prod.mk.injEq] at h <;>
      obtain ⟨rfl, rfl⟩ := h <;>
      simp_all
  | callWait =>
    cases hd <;> cases br <;>
      simp only [step, Option.some.injEq, Prod.mk.injEq] at h <;>
      obtain ⟨rfl, rfl⟩ := h <;>
      simp_all
  | tick =>
    cases tm <;> cases hd <;>
      simp only [step, beginAttempt, Option.some.injEq, Prod.mk.injEq, reduceIte] at h <;>
      obtain ⟨rfl, rfl⟩ := h <;>
      simp_all
  | settle o =>
    cases run with
    | zero => simp [step] at h
    | succ n =>
      cases o <;> cases hEH : c.hasErrorHandler <;> cases hET : c.errorHandlerThrows <;>
        simp only [step, hEH, hET, Waiters.wake, Option.some.injEq, Prod.mk.injEq,
          reduceCtorEq, and_true, and_false, true_and, false_and, if_true, if_false,
          reduceIte] at h <;>
        obtain ⟨rfl, rfl⟩ := h <;>
        simp_all [List.mem_replicate, List.mem_append]
  | resumeStart =>
    cases st <;> cases hd <;> cases br <;> cases sR <;>
      simp only [step, Option.some.injEq, Prod.mk.injEq] at h <;>
      obtain ⟨rfl, rfl⟩ := h <;>
      simp_all
  | resumeStop =>
    cases pR <;>
      simp only [step, Option.some.injEq, Prod.mk.injEq] at h <;>
      obtain ⟨rfl, rfl⟩ := h <;>
      simp_all
  | resumeStopRed =>
    cases rR <;>
      simp only [step, Option.some.injEq, Prod.mk.injEq] at h <;>
      obtain ⟨rfl, rfl⟩ := h <;>
      simp_all

/-- Counters of continuations blocked on the execution promise can only
decrease at a settlement of that promise. -/
theorem blocked_decrease {c : Cfg} {s s2 : SchedState} {ev : Ev} {obs : List Res}
    (h : step c s ev = some (s2, obs))
    (hdec : s2.waiters.stopRB < s.waiters.stopRB ∨ s2.waiters.stopB < s.waiters.stopB ∨
      s2.waiters.userB < s.waiters.userB) :
    ∃ o, ev = Ev.settle o := by
  obtain ⟨st, tm, hd, br, run, beg, hc, sB, sR, pB, pR, rB, rR, uB⟩ := s
  cases ev with
  | callStart =>
    exfalso
    cases st <;> cases hd <;> cases br <;>
      simp only [step, Option.some.injEq, Prod.mk.injEq] at h <;>
      obtain ⟨rfl, rfl⟩ := h <;>
      cases hIm : c.immediateFirstRun <;>
      simp_all [activate, beginAttempt] <;>
      omega
  | callStop =>
    exfalso
    cases st <;> cases hd <;> cases br <;>
      simp only [step, Option.some.injEq, Prod.mk.injEq] at h <;>
      obtain ⟨rfl, rfl⟩ := h <;>
      simp_all <;>
      omega
  | callWait =>
    exfalso
    cases hd <;> cases br <;>
      simp only [step, Option.some.injEq, Prod.mk.injEq] at h <;>
      obtain ⟨rfl, rfl⟩ := h <;>
      simp_all <;>
      omega
  | tick =>
    exfalso
    cases tm <;> cases hd <;>
      simp only [step, beginAttempt, Option.some.injEq, Prod.mk.injEq, reduceIte] at h <;>
      obtain ⟨rfl, rfl⟩ := h <;>
      simp_all <;>
      omega
  | settle o => exact ⟨o, rfl⟩
  | resumeStart =>
    exfalso
    cases st <;> cases hd <;> cases br <;> cases sR <;>
      simp only [step, Option.some.injEq, Prod.mk.injEq] at h <;>
      obtain ⟨rfl, rfl⟩ := h <;>
      cases hIm : c.immediateFirstRun <;>
      simp_all [activate, beginAttempt] <;>
      omega
  | resumeStop =>
    exfalso
    cases pR <;>
      simp only [step, Option.some.injEq, Prod.mk.injEq] at h <;>
      obtain ⟨rfl, rfl⟩ := h <;>
      simp_all <;>
      omega
  | resumeStopRed =>
    exfalso
    cases rR <;>
      simp only [step, Option.some.injEq, Prod.mk.injEq] at h <;>
      obtain ⟨rfl, rfl⟩ := h <;>
      simp_all <;>
      omega

/-! ## The claims -/

/-- Claim C1: in every reachable state, under every interleaving of
timer ticks, start and stop calls, at most one attempt is in flight; and
a timer tick that fires while an execution promise exists changes
nothing at all -- the fire is discarded and no new attempt begins. -/
theorem claim1_non_overlap {c : Cfg} {s : SchedState} (hr : Reach c s) :
    s.running ≤ 1 ∧
    (s.handle = true → s.timerArmed = true → step c s Ev.tick = some (s, [])) := by
  refine ⟨(inv_reach hr).1, ?_⟩
  intro hh ht
  simp [step, hh, ht]

/-- Claim C3: a `start` call made while `active` resolves `false` with
the state unchanged (no attempt, no rearming); made while `inactive` it
activates and resolves `true`; and across every step of the system, a
`start` promise resolves `true` exactly on an inactive-to-active
transition and `false` exactly when already active with no effect. -/
theorem claim3_start_iff_transition {c : Cfg} {s s2 : SchedState} {ev : Ev} {obs : List Res}
    (hr : Reach c s) (hstep : step c s ev = some (s2, obs)) :
    (s.status = Status.active → step c s Ev.callStart = some (s, [Res.startRet false])) ∧
    (s.status = Status.inactive →
       step c s Ev.callStart = some (activate c s, [Res.startRet true]) ∧
       (activate c s).status = Status.active) ∧
    (Res.startRet true ∈ obs → s.status = Status.inactive ∧ s2.status = Status.active) ∧
    (Res.startRet false ∈ obs →
       s.status = Status.active ∧ s2.status = Status.active ∧ s2.begun = s.begun ∧
       s2.timerArmed = s.timerArmed ∧ s2.handle = s.handle ∧ s2.running = s.running) := by
  refine ⟨?_, ?_, ?_, ?_⟩
  · intro hst
    simp [step, hst]
  · intro hst
    exact ⟨by simp [step, hst], activate_status c s⟩
  · intro hmem
    rcases startRet_emitted hstep true hmem with ⟨_, h1, h2⟩ | ⟨hfalse, _⟩
    · exact ⟨h1, h2⟩
    · exact absurd hfalse (by simp)
  · intro hmem
    rcases startRet_emitted hstep false hmem with ⟨hfalse, _⟩ | ⟨_, h⟩
    · exact absurd hfalse (by simp)
    · exact h

/-- Claim C4: a `stop` call made while `inactive` resolves `false`
immediately with no change; made while `terminating` or `active` it
never resolves in its synchronous part (it suspends), a blocked stop
continuation is released only by a settlement of the execution promise,
and a `stop` promise resolves `true` only through the continuation of
the call that initiated the active-to-terminating-to-inactive
transition, at which instant the status becomes `inactive`. -/
theorem claim4_stop_protocol {c : Cfg} {s s2 : SchedState} {ev : Ev} {obs : List Res}
    (hw : WellBehaved c) (hr : Reach c s) (hstep : step c s ev = some (s2, obs)) :
    (s.status = Status.inactive → step c s Ev.callStop = some (s, [Res.stopRet false])) ∧
    (s.status = Status.terminating → s.handle = true →
       step c s Ev.callStop =
         some ({ s with waiters := { s.waiters with stopRB := s.waiters.stopRB + 1 } }, [])) ∧
    (s.status = Status.terminating → s.handle = false →
       step c s Ev.callStop =
         some ({ s with waiters := { s.waiters with stopRR := s.waiters.stopRR + 1 } }, [])) ∧
    (s.status = Status.active → s.handle = true →
       step c s Ev.callStop =
         some ({ s with status := Status.terminating, timerArmed := false,
                        waiters := { s.waiters with stopB := s.waiters.stopB + 1 } }, [])) ∧
    (s.status = Status.active → s.handle = false →
       step c s Ev.callStop =
         some ({ s with status := Status.terminating, timerArmed := false,
                        waiters := { s.waiters with stopR := s.waiters.stopR + 1 } }, [])) ∧
    (Res.stopRet true ∈ obs →
       ev = Ev.resumeStop ∧ s.status = Status.terminating ∧
       s2.status = Status.inactive) ∧
    (Res.stopRet false ∈ obs → s2.status = s.status ∧ s2.handle = s.handle) ∧
    (s2.waiters.stopRB < s.waiters.stopRB ∨ s2.waiters.stopB < s.waiters.stopB →
       ∃ o, ev = Ev.settle o) := by
  have hnb := notBroken_reach hw hr
  obtain ⟨i1, i2, i3, i4, i5, i6, i7, i8, i9⟩ := inv_reach hr
  refine ⟨?_, ?_, ?_, ?_, ?_, ?_, ?_, ?_⟩
  · intro hst
    simp [step, hst]
  · intro hst hh
    simp [step, hst, hh, hnb]
  · intro hst hh
    simp [step, hst, hh]
  · intro hst hh
    simp [step, hst, hh, hnb]
  · intro hst hh
    simp [step, hst, hh]
  · intro hmem
    rcases stopRet_emitted hstep true hmem with ⟨_, h1, h2, h3⟩ | ⟨hfalse, _⟩
    · exact ⟨h1, i7 (by omega), h3⟩
    · exact absurd hfalse (by simp)
  · intro hmem
    rcases stopRet_emitted hstep false hmem with ⟨hfalse, _⟩ | ⟨_, h1, h2, _⟩
    · exact absurd hfalse (by simp)
    · exact ⟨h1, h2⟩
  · intro hdec
    exact blocked_decrease hstep (by omega)

/-- Claim C6: `waitUntilCurrentExecutionCompletes` resolves immediately
when no attempt is in flight, never rejects under a well-behaved
handler, and whenever the in-flight attempt settles, every pending
waiter promise resolves at once at that settlement, leaving none
pending. -/
theorem claim6_waitUntil {c : Cfg} {s s2 : SchedState} {ev : Ev} {obs : List Res}
    (hw : WellBehaved c) (hr : Reach c s)
    (hstep : step c s ev = some (s2, obs)) :
    (s.handle = false → step c s Ev.callWait = some (s, [Res.waitRet])) ∧
    (s.handle = true → step c s Ev.callWait =
       some ({ s with waiters := { s.waiters with userB := s.waiters.userB + 1 } }, [])) ∧
    Res.waitRej ∉ obs ∧
    (∀ (o : TaskOutcome) (s3 : SchedState) (obs2 : List Res),
       step c s (Ev.settle o) = some (s3, obs2) →
       obs2 = List.replicate s.waiters.userB Res.waitRet ∧
       s3.waiters.userB = 0) := by
  have hnb := notBroken_reach hw hr
  refine ⟨?_, ?_, ?_, ?_⟩
  · intro hh
    simp [step, hh]
  · intro hh
    simp [step, hh, hnb]
  · intro hmem
    rcases rejection_emitted hstep (by simp [hmem]) with h1 | ⟨h2, h3⟩
    · rw [hnb] at h1
      exact Bool.false_ne_true h1
    · rw [hw h2] at h3
      exact Bool.false_ne_true h3
  · intro o s3 obs2 hset
    have hcond : ¬ (o = TaskOutcome.failure ∧ c.hasErrorHandler = true ∧
        c.errorHandlerThrows = true) := by
      rintro ⟨-, h2, h3⟩
      rw [hw h2] at h3
      exact Bool.false_ne_true h3
    rcases hrun : s.running with - | n
    · simp [step, hrun] at hset
    · simp only [step, hrun, if_neg (Nat.succ_ne_zero n), if_neg hcond,
        Option.some.injEq, Prod.mk.injEq] at hset
      obtain ⟨rfl, rfl⟩ := hset
      exact ⟨rfl, rfl⟩

/-- Claim C7: task failures are contained -- no step ever rejects a
`start`, `stop` or wait promise under a well-behaved handler; a failure
settlement clears the execution promise unconditionally, invokes the
error handler exactly when one was supplied, and leaves the scheduling
state untouched; with no handler, a failing settlement is
indistinguishable from a successful one. -/
theorem claim7_failure_containment {c : Cfg} {s s2 : SchedState} {ev : Ev} {obs : List Res}
    (hw : WellBehaved c) (hr : Reach c s) (hstep : step c s ev = some (s2, obs)) :
    (Res.startRej ∉ obs ∧ Res.stopRej ∉ obs ∧ Res.waitRej ∉ obs) ∧
    (ev = Ev.settle TaskOutcome.failure →
       s2.handle = false ∧
       s2.handlerCalls = s.handlerCalls + (if c.hasErrorHandler = true then 1 else 0) ∧
       s2.begun = s.begun ∧ s2.status = s.status ∧ s2.timerArmed = s.timerArmed) ∧
    (c.hasErrorHandler = false →
       step c s (Ev.settle TaskOutcome.failure) = step c s (Ev.settle TaskOutcome.success)) := by
  have hnb := notBroken_reach hw hr
  have hrej : ∀ r : Res, r ∈ obs →
      Res.startRej ∈ obs ∨ Res.stopRej ∈ obs ∨ Res.waitRej ∈ obs → False := by
    intro _ _ hmem
    rcases rejection_emitted hstep hmem with h1 | ⟨h2, h3⟩
    · rw [hnb] at h1
      exact Bool.false_ne_true h1
    · rw [hw h2] at h3
      exact Bool.false_ne_true h3
  refine ⟨⟨?_, ?_, ?_⟩, ?_, ?_⟩
  · intro hmem
    exact hrej _ hmem (Or.inl hmem)
  · intro hmem
    exact hrej _ hmem (Or.inr (Or.inl hmem))
  · intro hmem
    exact hrej _ hmem (Or.inr (Or.inr hmem))
  · rintro rfl
    rcases hrun : s.running with - | n
    · simp [step, hrun] at hstep
    · cases hEH2 : c.hasErrorHandler with
      | true =>
        have hET2 := hw hEH2
        simp only [step, hrun, hEH2, hET2, Nat.succ_ne_zero, if_false, reduceIte,
          and_true, and_false, true_and, false_and, reduceCtorEq, Bool.false_eq_true,
          Option.some.injEq, Prod.mk.injEq] at hstep
        obtain ⟨rfl, rfl⟩ := hstep
        simp [hEH2]
      | false =>
        simp only [step, hrun, hEH2, Nat.succ_ne_zero, if_false, reduceIte,
          and_true, and_false, true_and, false_and, reduceCtorEq, Bool.false_eq_true,
          Option.some.injEq, Prod.mk.injEq] at hstep
        obtain ⟨rfl, rfl⟩ := hstep
        simp [hEH2]
  · intro hEH
    simp [step, hEH]

/-- Claim C8: a `start` call made while `terminating` suspends without
any immediate result; no step taken from a `terminating` state resolves
a `start` promise; the suspended call, once resumed in an `inactive`
state, performs a normal activation and resolves `true`; and whenever a
`start` promise resolves, the status at that instant is `active`. -/
theorem claim8_start_waits_out_termination {c : Cfg} {s s2 : SchedState} {ev : Ev}
    {obs : List Res} (hw : WellBehaved c) (hr : Reach c s)
    (hstep : step c s ev = some (s2, obs)) :
    (s.status = Status.terminating → s.handle = true →
       step c s Ev.callStart =
         some ({ s with waiters := { s.waiters with startB := s.waiters.startB + 1 } }, [])) ∧
    (s.status = Status.terminating → s.handle = false →
       step c s Ev.callStart =
         some ({ s with waiters := { s.waiters with startR := s.waiters.startR + 1 } }, [])) ∧
    (s.status = Status.terminating →
       Res.startRet true ∉ obs ∧ Res.startRet false ∉ obs) ∧
    (ev = Ev.resumeStart → s.status = Status.inactive →
       s2 = activate c { s with waiters := { s.waiters with startR := s.waiters.startR - 1 } } ∧
       obs = [Res.startRet true] ∧ s2.status = Status.active ∧
       (c.immediateFirstRun = true → s2.running = 1 ∧ s2.begun = s.begun + 1)) ∧
    (Res.startRet true ∈ obs → s2.status = Status.active) ∧
    (Res.startRet false ∈ obs → s2.status = Status.active) := by
  have hnb := notBroken_reach hw hr
  obtain ⟨i1, i2, i3, i4, i5, i6, i7, i8, i9⟩ := inv_reach hr
  refine ⟨?_, ?_, ?_, ?_, ?_, ?_⟩
  · intro hst hh
    simp [step, hst, hh, hnb]
  · intro hst hh
    simp [step, hst, hh]
  · intro hst
    constructor
    · intro hmem
      rcases startRet_emitted hstep true hmem with ⟨_, h1, _⟩ | ⟨hfalse, _⟩
      · rw [h1] at hst
        exact Status.noConfusion hst
      · exact absurd hfalse (by simp)
    · intro hmem
      rcases startRet_emitted hstep false hmem with ⟨hfalse, _⟩ | ⟨_, h1, _⟩
      · exact absurd hfalse (by simp)
      · rw [h1] at hst
        exact Status.noConfusion hst
  · rintro rfl hst
    have hhd := i4 hst
    have hrun : s.running = 0 := by
      rcases hq : s.running with - | m
      · rfl
      · rw [i2 (by omega)] at hhd
        exact absurd hhd (by simp)
    rcases hsR : s.waiters.startR with - | n
    · simp [step, hsR] at hstep
    · simp only [step, hsR, if_neg (Nat.succ_ne_zero n), hst, Option.some.injEq,
        Prod.mk.injEq] at hstep
      obtain ⟨rfl, rfl⟩ := hstep
      refine ⟨by rw [hst], rfl, activate_status c _, ?_⟩
      intro hIm
      simp [activate, beginAttempt, hIm, hrun]
  · intro hmem
    rcases startRet_emitted hstep true hmem with ⟨_, _, h2⟩ | ⟨hfalse, _⟩
    · exact h2
    · exact absurd hfalse (by simp)
  · intro hmem
    rcases startRet_emitted hstep false hmem with ⟨hfalse, _⟩ | ⟨_, _, h2, _⟩
    · exact absurd hfalse (by simp)
    · exact h2

/-- Claim C9: in every reachable state under a well-behaved handler,
`isCurrentlyExecuting` is `true` exactly while an attempt has begun and
not yet settled, and it is always `false` while the status is
`inactive`. -/
theorem claim9_isCurrentlyExecuting {c : Cfg} {s : SchedState}
    (hw : WellBehaved c) (hr : Reach c s) :
    (isCurrentlyExecuting s = true ↔ s.running = 1) ∧
    (s.status = Status.inactive → isCurrentlyExecuting s = false) := by
  have hnb := notBroken_reach hw hr
  obtain ⟨i1, i2, i3, i4, i5, i6, i7, i8, i9⟩ := inv_reach hr
  refine ⟨⟨?_, ?_⟩, ?_⟩
  · intro hh
    rcases i3 hh with h | h
    · exact h
    · rw [hnb] at h
      exact absurd h (by simp)
  · exact i2
  · exact i4

/-- Claim C10: when the supplied error handler itself throws at a
failing settlement, the execution promise is never cleared: in every
state reachable afterwards the stale promise persists, the count of
attempts ever begun is frozen, every timer tick is discarded, and
`waitUntilCurrentExecutionCompletes` hands out a rejected promise. -/
theorem claim10_throwing_handler {c : Cfg} {s s2 t : SchedState} {obs : List Res}
    (hEH : c.hasErrorHandler = true) (hET : c.errorHandlerThrows = true)
    (hr : Reach c s)
    (hset : step c s (Ev.settle TaskOutcome.failure) = some (s2, obs))
    (ht : Steps c s2 t) :
    s2.handleBroken = true ∧ s2.handle = true ∧
    t.handle = true ∧ t.handleBroken = true ∧ t.begun = s2.begun ∧ t.running = 0 ∧
    (t.timerArmed = true → step c t Ev.tick = some (t, [])) ∧
    step c t Ev.callWait = some (t, [Res.waitRej]) := by
  obtain ⟨i1, i2, i3, i4, i5, i6, i7, i8, i9⟩ := inv_reach hr
  rcases hrun : s.running with - | n
  · simp [step, hrun] at hset
  · have hh : s.handle = true := i2 (by omega)
    have hst : s.status ≠ Status.inactive := by
      intro h
      rw [i4 h] at hh
      exact Bool.false_ne_true hh
    have hpR : s.waiters.stopR = 0 := by
      rcases hq : s.waiters.stopR with - | m
      · rfl
      · rw [i9 (by omega)] at hh
        exact absurd hh (by simp)
    have hn : n = 0 := by omega
    subst hn
    simp only [step, hrun, if_neg (Nat.succ_ne_zero 0), hEH, hET, and_self,
      and_true, true_and, eq_self_iff_true, if_true, reduceIte, Option.some.injEq,
      Prod.mk.injEq] at hset
    obtain ⟨rfl, rfl⟩ := hset
    have hB : BrokenStable s.begun
        { s with running := 0 + 1 - 1, handlerCalls := s.handlerCalls + 1,
                 handleBroken := true,
                 waiters := { s.waiters with startB := 0, stopB := 0, stopRB := 0, userB := 0 } } := by
      exact ⟨rfl, hh, rfl, hst, rfl, hpR, rfl⟩
    have hBt := brokenStable_steps hB ht
    obtain ⟨b1, b2, b3, b4, b5, b6, b7⟩ := hBt
    refine ⟨rfl, hh, b2, b1, ?_, b3, ?_, ?_⟩
    · rw [b7]
    · intro htm
      simp [step, htm, b2]
    · simp [step, b2, b1]

/-! ## Claim C2: the shipped `stop` runs no final attempt

The class's type declarations and unit tests specify
`stop(shouldExecuteFinalRun?: boolean)` with one guaranteed extra
attempt, but the shipped implementation's `stop()` takes no parameter
and begins no attempt anywhere on its path.  The embedding therefore has
a single `stop` behaviour, and the following concrete run exhibits the
divergence: a full stop cycle from `active` with no attempt in flight
reaches `inactive`, resolves `true`, and the count of attempts ever
begun stays zero. -/

/-- Configuration for the final-run scenario: `immediateFirstRun` off,
no error handler. -/
def finalRunCfg : Cfg := ⟨false, false, false⟩

/-- After `start()`: active, timer armed, no attempt yet begun. -/
def frActive : SchedState :=
  ⟨Status.active, true, false, false, 0, 0, 0, Waiters.none⟩

/-- After the synchronous part of `stop(true)` issued between attempts:
terminating, timer cleared, the initiating continuation runnable. -/
def frTerm : SchedState :=
  ⟨Status.terminating, false, false, false, 0, 0, 0, ⟨0, 0, 0, 1, 0, 0, 0⟩⟩

/-- After the stop continuation resumes: inactive again. -/
def frDone : SchedState :=
  ⟨Status.inactive, false, false, false, 0, 0, 0, Waiters.none⟩

/-- Claim C2: the `stop` of the shipped implementation accepts no
`shouldExecuteFinalRun` flag and begins no additional attempt.  In the
concrete run below, `stop(true)` issued while `active` between attempts
completes the whole `active` to `terminating` to `inactive` protocol
resolving `true` with zero attempts ever begun -- the claim's required
single final attempt never happens. -/
theorem claim2_stop_runs_no_final_attempt :
    step finalRunCfg initState Ev.callStart = some (frActive, [Res.startRet true]) ∧
    step finalRunCfg frActive Ev.callStop = some (frTerm, []) ∧
    step finalRunCfg frTerm Ev.resumeStop = some (frDone, [Res.stopRet true]) ∧
    frActive.begun = 0 ∧ frDone.begun = 0 ∧ frDone.status = Status.inactive := by
  decide

/-! ## Claim C5: validation -/

/-- The `typeof v === 'boolean'` test accepts exactly the boolean
values. -/
theorem jsTypeofBoolean_spec (v : JSVal) :
    jsTypeofBoolean v = true ↔ IsBooleanSpec v := by
  cases v <;> simp [jsTypeofBoolean, IsBooleanSpec]

/-- Claim C5 (counterexample): with `intervalMs = Infinity` -- a number
that is not a positive integer -- and a boolean `immediateFirstRun`,
construction succeeds, because `Math.floor(Infinity) === Infinity` and
`Infinity >= 1`.  The claimed equivalence `fails iff intervalMs is not a
positive integer or immediateFirstRun is not a boolean` is therefore
false at this input. -/
theorem claim5_counterexample :
    construct () (JSVal.num JSNum.posInf) (JSVal.boolV true) (none : Option Unit) =
      Except.ok Status.inactive ∧
    ¬ IsPositiveIntegerSpec (JSVal.num JSNum.posInf) ∧
    IsBooleanSpec (JSVal.boolV true) := by
  refine ⟨rfl, ?_, ⟨true, rfl⟩⟩
  rintro ⟨k, -, h⟩
  simp at h

/-- Claim C5 (amended): construction fails synchronously if and only if
`intervalMs` is neither a positive integer nor positive infinity, or
`immediateFirstRun` is not a boolean; no other validation is performed
and a successful construction starts with status `inactive`. -/
theorem claim5_validation {α β : Type} (task : α) (onErr : Option β) (i b : JSVal) :
    ((∃ e, construct task i b onErr = Except.error e) ↔
       (¬ (IsPositiveIntegerSpec i ∨ i = JSVal.num JSNum.posInf) ∨ ¬ IsBooleanSpec b)) ∧
    (∀ st, construct task i b onErr = Except.ok st → st = Status.inactive) := by
  constructor
  · cases hN : isNaturalNumber i with
    | false =>
      apply iff_of_true
      · exact ⟨"NonOverlappingRecurringTask expects a natural number for intervalMs",
          by simp [construct, validateOptions, hN]⟩
      · left
        rw [← isNaturalNumber_characterization]
        simp [hN]
    | true =>
      cases hB : jsTypeofBoolean b with
      | false =>
        apply iff_of_true
        · exact ⟨"NonOverlappingRecurringTask expects a boolean type for immediateFirstRun",
            by simp [construct, validateOptions, hN, hB]⟩
        · right
          rw [← jsTypeofBoolean_spec]
          simp [hB]
      | true =>
        apply iff_of_false
        · rintro ⟨e, he⟩
          simp [construct, validateOptions, hN, hB] at he
        · rintro (h1 | h2)
          · exact h1 ((isNaturalNumber_characterization i).mp hN)
          · exact h2 ((jsTypeofBoolean_spec b).mp hB)
  · intro st h
    cases hv : validateOptions i b with
    | error e =>
      simp only [construct, hv] at h
      exact Except.noConfusion h
    | ok u =>
      simp only [construct, hv] at h
      exact (Except.ok.inj h).symm

/-! ## Witness runs

A small family of concrete states reached by explicit event sequences,
used to instantiate the claims. -/

/-- A configuration with `immediateFirstRun`, no error handler. -/
def exCfg : Cfg := ⟨true, false, false⟩

/-- With no handler supplied, the handler assumption holds vacuously. -/
theorem exCfg_wb : WellBehaved exCfg := by
  intro h
  simp [exCfg] at h

/-- The construction state is reachable. -/
theorem init_reach (c : Cfg) : Reach c initState := Steps.refl initState

/-- After `start()` with an immediate first run: one attempt in
flight. -/
def exActive : SchedState :=
  ⟨Status.active, true, true, false, 1, 1, 0, Waiters.none⟩

theorem exActive_reach : Reach exCfg exActive := by
  have h1 : step exCfg initState Ev.callStart = some (exActive, [Res.startRet true]) := by
    decide
  exact Steps.tail (Steps.refl initState) h1

/-- After `stop()` during the attempt: terminating, stop continuation
blocked on the execution promise. -/
def exTerm : SchedState :=
  ⟨Status.terminating, false, true, false, 1, 1, 0, ⟨0, 0, 1, 0, 0, 0, 0⟩⟩

theorem exTerm_reach : Reach exCfg exTerm := by
  have h1 : step exCfg exActive Ev.callStop = some (exTerm, []) := by decide
  exact Steps.tail exActive_reach h1

/-- After the attempt settles: the stop continuation is runnable. -/
def exTermIdle : SchedState :=
  ⟨Status.terminating, false, false, false, 0, 1, 0, ⟨0, 0, 0, 1, 0, 0, 0⟩⟩

theorem exTermIdle_reach : Reach exCfg exTermIdle := by
  have h1 : step exCfg exTerm (Ev.settle TaskOutcome.success) = some (exTermIdle, []) := by
    decide
  exact Steps.tail exTerm_reach h1

/-- After the stop continuation resumes: inactive. -/
def exDone : SchedState :=
  ⟨Status.inactive, false, false, false, 0, 1, 0, Waiters.none⟩

/-- The state after a settlement observed from `exActive`. -/
def exAfterSettle : SchedState :=
  ⟨Status.active, true, false, false, 0, 1, 0, Waiters.none⟩

/-- Like `exTerm` but with a `start()` call also suspended (it arrived
during the terminating phase). -/
def exTermS : SchedState :=
  ⟨Status.terminating, false, true, false, 1, 1, 0, ⟨1, 0, 1, 0, 0, 0, 0⟩⟩

theorem exTermS_reach : Reach exCfg exTermS := by
  have h1 : step exCfg exTerm Ev.callStart = some (exTermS, []) := by decide
  exact Steps.tail exTerm_reach h1

/-- After the attempt settles: both continuations runnable. -/
def exTermSIdle : SchedState :=
  ⟨Status.terminating, false, false, false, 0, 1, 0, ⟨0, 1, 0, 1, 0, 0, 0⟩⟩

theorem exTermSIdle_reach : Reach exCfg exTermSIdle := by
  have h1 : step exCfg exTermS (Ev.settle TaskOutcome.success) = some (exTermSIdle, []) := by
    decide
  exact Steps.tail exTermS_reach h1

/-- After the stop continuation resumes: inactive, with the suspended
`start()` still runnable. -/
def exInactiveS : SchedState :=
  ⟨Status.inactive, false, false, false, 0, 1, 0, ⟨0, 1, 0, 0, 0, 0, 0⟩⟩

theorem exInactiveS_reach : Reach exCfg exInactiveS := by
  have h1 : step exCfg exTermSIdle Ev.resumeStop = some (exInactiveS, [Res.stopRet true]) := by
    decide
  exact Steps.tail exTermSIdle_reach h1

/-- After the suspended `start()` resumes and re-activates. -/
def exRestarted : SchedState :=
  ⟨Status.active, true, true, false, 1, 2, 0, Waiters.none⟩

/-- Witness for claim C1, at a reachable state with an attempt in
flight: the bound holds and a timer tick is discarded unchanged. -/
theorem claim1_witness :
    exActive.running ≤ 1 ∧ step exCfg exActive Ev.tick = some (exActive, []) :=
  ⟨(claim1_non_overlap exActive_reach).1,
   (claim1_non_overlap exActive_reach).2 rfl rfl⟩

/-- Witness for claim C3, at the construction state: `start` activates
and resolves `true`. -/
theorem claim3_witness :
    step exCfg initState Ev.callStart = some (activate exCfg initState, [Res.startRet true]) ∧
    (activate exCfg initState).status = Status.active := by
  have h1 : step exCfg initState Ev.callStart = some (exActive, [Res.startRet true]) := by
    decide
  exact (claim3_start_iff_transition (init_reach exCfg) h1).2.1 rfl

/-- Witness for claim C4, at the resumption of an initiating stop
continuation: the `true` resolution happens exactly at the
terminating-to-inactive transition. -/
theorem claim4_witness :
    Ev.resumeStop = Ev.resumeStop ∧ exTermIdle.status = Status.terminating ∧
    exDone.status = Status.inactive := by
  have h1 : step exCfg exTermIdle Ev.resumeStop = some (exDone, [Res.stopRet true]) := by
    decide
  exact (claim4_stop_protocol exCfg_wb exTermIdle_reach h1).2.2.2.2.2.1 (by decide)

/-- Witness for claim C6: at the construction state no attempt is in
flight and the wait call resolves immediately without rejecting; at a
settlement from a state with an attempt in flight, the observation list
is exactly the released waiters and none remain. -/
theorem claim6_witness :
    step exCfg initState Ev.callWait = some (initState, [Res.waitRet]) ∧
    Res.waitRej ∉ ([Res.waitRet] : List Res) ∧
    ([] : List Res) = List.replicate exActive.waiters.userB Res.waitRet ∧
    exAfterSettle.waiters.userB = 0 := by
  have h1 : step exCfg initState Ev.callWait = some (initState, [Res.waitRet]) := by decide
  have h2 := claim6_waitUntil exCfg_wb (init_reach exCfg) h1
  have h3 : step exCfg exActive (Ev.settle TaskOutcome.success) = some (exAfterSettle, []) := by
    decide
  have h4 := (claim6_waitUntil exCfg_wb exActive_reach h3).2.2.2
    TaskOutcome.success exAfterSettle [] h3
  exact ⟨h2.1 rfl, h2.2.2.1, h4.1, h4.2⟩

/-- Witness for claim C7, at a failing settlement with no handler: the
execution promise is cleared and no handler is invoked. -/
theorem claim7_witness :
    exAfterSettle.handle = false ∧
    exAfterSettle.handlerCalls =
      exActive.handlerCalls + (if exCfg.hasErrorHandler = true then 1 else 0) := by
  have h1 : step exCfg exActive (Ev.settle TaskOutcome.failure) = some (exAfterSettle, []) := by
    decide
  have h2 := (claim7_failure_containment exCfg_wb exActive_reach h1).2.1 rfl
  exact ⟨h2.1, h2.2.1⟩

/-- Witness for claim C8, at the resumption of a `start()` that had
waited out a terminating phase: it activates normally and one attempt
begins. -/
theorem claim8_witness :
    exRestarted =
      activate exCfg
        { exInactiveS with
          waiters := { exInactiveS.waiters with startR := exInactiveS.waiters.startR - 1 } } ∧
    exRestarted.status = Status.active ∧ exRestarted.running = 1 ∧
    exRestarted.begun = exInactiveS.begun + 1 := by
  have h1 : step exCfg exInactiveS Ev.resumeStart = some (exRestarted, [Res.startRet true]) := by
    decide
  have h2 := (claim8_start_waits_out_termination exCfg_wb exInactiveS_reach h1).2.2.2.1 rfl rfl
  exact ⟨h2.1, h2.2.2.1, (h2.2.2.2 rfl).1, (h2.2.2.2 rfl).2⟩

/-- Witness for claim C9, at a reachable state with an attempt in
flight. -/
theorem claim9_witness :
    exActive.running = 1 ∧ isCurrentlyExecuting exActive = true :=
  ⟨(claim9_isCurrentlyExecuting exCfg_wb exActive_reach).1.mp rfl, rfl⟩

/-- A configuration whose error handler throws when invoked. -/
def brCfg : Cfg := ⟨true, true, true⟩

/-- One attempt in flight under the throwing-handler configuration. -/
def brActive : SchedState :=
  ⟨Status.active, true, true, false, 1, 1, 0, Waiters.none⟩

theorem brActive_reach : Reach brCfg brActive := by
  have h1 : step brCfg initState Ev.callStart = some (brActive, [Res.startRet true]) := by
    decide
  exact Steps.tail (Steps.refl initState) h1

/-- The state after the attempt fails and the handler throws. -/
def brBroken : SchedState :=
  ⟨Status.active, true, true, true, 0, 1, 1, Waiters.none⟩

/-- Witness for claim C10: after the handler throws, the stale promise
persists, a tick is discarded, and the wait operation rejects. -/
theorem claim10_witness :
    brBroken.handleBroken = true ∧ brBroken.handle = true ∧
    step brCfg brBroken Ev.tick = some (brBroken, []) ∧
    step brCfg brBroken Ev.callWait = some (brBroken, [Res.waitRej]) := by
  have h1 : step brCfg brActive (Ev.settle TaskOutcome.failure) = some (brBroken, []) := by
    decide
  obtain ⟨a1, a2, a3, a4, a5, a6, a7, a8⟩ :=
    claim10_throwing_handler rfl rfl brActive_reach h1 (Steps.refl brBroken)
  exact ⟨a1, a2, a7 rfl, a8⟩

/-- Witness for claim C5's amended statement: `NaN` is rejected. -/
theorem claim5_witness :
    ∃ e, construct () (JSVal.num JSNum.nan) (JSVal.boolV true) (none : Option Unit) =
      Except.error e := by
  refine ((claim5_validation () (none : Option Unit) (JSVal.num JSNum.nan)
    (JSVal.boolV true)).1).mpr ?_
  left
  rintro (⟨k, -, h⟩ | h) <;> simp at h

end NonOverlappingRecurringTask
